import Mathlib

/-!
Verification of the DARS response-partitioning, humor-level, todo and note
logic (src/languageModel/llm.py), over a shallow embedding: Python strings
are lists of characters, the file-backed todo/note stores are lists of
records, and recursive scanners are given explicit fuel so that every
definition is executable by kernel reduction.
-/

/-- Python strings are modelled as lists of characters. -/
abbrev Str := List Char

/-- ASCII whitespace, as recognised by Python str.strip on ASCII text. -/
def isWS (c : Char) : Bool :=
  c = ' ' || c = '\t' || c = '\n' || c = '\r' || c = '\x0b' || c = '\x0c'

/-- Right trim (Python str.rstrip). -/
def trimR (s : Str) : Str := (s.reverse.dropWhile isWS).reverse

/-- Python str.strip: drop whitespace from both ends. -/
def pyStrip (s : Str) : Str := (trimR s).dropWhile isWS

/-- Python substring test: q in s. -/
def occurs (q : Str) : Str → Bool
  | [] => q.isEmpty
  | c :: rest => q.isPrefixOf (c :: rest) || occurs q rest

/-- Python str.lower on ASCII text. -/
def lowerS (s : Str) : Str := s.map Char.toLower

/-- Value of a run of decimal digits (Python int on a digit string). -/
def natOfDigits (s : Str) : Nat := s.foldl (fun a c => 10 * a + (c.toNat - 48)) 0

/-- The per-line function marker of DARSTask.run. -/
def FUNCpat : Str := ("FUNC:").data

/-- The combined-string function delimiter emitted by DARSTask.run. -/
def FOpat : Str := ("FUNCTION_OUTPUT:").data

/-- The combined-string natural-language delimiter emitted by DARSTask.run. -/
def NATpat : Str := ("NATURAL_OUTPUT:").data

/-- Python str.split on a newline: keeps empty segments, "" gives [""]. -/
def splitLines : Str → List Str
  | [] => [[]]
  | c :: rest =>
    if c = '\n' then [] :: splitLines rest
    else
      match splitLines rest with
      | [] => [[c]]
      | l :: ls => (c :: l) :: ls

/-- Python (newline).join. -/
def joinN : List Str → Str
  | [] => []
  | [l] => l
  | l :: ls => l ++ '\n' :: joinN ls

/-- A noise line of DARSTask.run: debug/stats markers, warnings, the
shutdown banner, or a blank line. -/
def isNoise (l : Str) : Bool :=
  occurs ((">>>").data) l || occurs (("<<<").data) l ||
  occurs (("Stats:").data) l || occurs (("WARNING").data) l ||
  occurs (("Bye, hope this was useful!").data) l || (pyStrip l).isEmpty

/-- ANSI escape: parameter byte class 0x30-0x3F of the CSI form. -/
def ansiParam (c : Char) : Bool := 0x30 ≤ c.toNat && c.toNat ≤ 0x3F

/-- ANSI escape: intermediate byte class 0x20-0x2F of the CSI form. -/
def ansiInter (c : Char) : Bool := 0x20 ≤ c.toNat && c.toNat ≤ 0x2F

/-- ANSI escape: final byte class 0x40-0x7E of the CSI form. -/
def ansiFinal (c : Char) : Bool := 0x40 ≤ c.toNat && c.toNat ≤ 0x7E

/-- ANSI escape: the two-character alternative class of the regex
\x1B(?:[@-Z\x5c-_]|...), i.e. 0x40-0x5A or 0x5C-0x5F. -/
def ansiTwo (c : Char) : Bool :=
  (0x40 ≤ c.toNat && c.toNat ≤ 0x5A) || (0x5C ≤ c.toNat && c.toNat ≤ 0x5F)

/-- strip_ansi_colors: remove every match of the ANSI-escape regex, scanning
left to right; fuel bounds the recursion (a match consumes at least one
character, so fuel = length suffices). -/
def strip_ansi_colorsF : Nat → Str → Str
  | _, [] => []
  | 0, s => s
  | fuel + 1, c :: rest =>
    if c = '\x1b' then
      match rest with
      | '[' :: rest2 =>
        let afterP := rest2.dropWhile ansiParam
        let afterI := afterP.dropWhile ansiInter
        match afterI with
        | f :: rest3 =>
          if ansiFinal f then strip_ansi_colorsF fuel rest3
          else c :: strip_ansi_colorsF fuel rest
        | [] => c :: strip_ansi_colorsF fuel rest
      | d :: rest2 =>
        if ansiTwo d then strip_ansi_colorsF fuel rest2
        else c :: strip_ansi_colorsF fuel rest
      | [] => [c]
    else c :: strip_ansi_colorsF fuel rest

/-- strip_ansi_colors of llm.py. -/
def strip_ansi_colors (s : Str) : Str := strip_ansi_colorsF s.length s

/-- Python str.split(sep) for a fixed non-empty separator q: scan left to
right, cutting at each non-overlapping leftmost occurrence; acc holds the
reversed current segment.  Fuel = length of the scanned string suffices. -/
def splitOnF (q : Str) : Nat → Str → Str → List Str
  | _, [], acc => [acc.reverse]
  | 0, s, acc => [acc.reverse ++ s]
  | fuel + 1, c :: rest, acc =>
    if q.isPrefixOf (c :: rest) then
      acc.reverse :: splitOnF q fuel (rest.drop (q.length - 1)) []
    else splitOnF q fuel rest (c :: acc)

/-- Python s.split(q) for non-empty q. -/
def splitOnW (q : Str) (s : Str) : List Str := splitOnF q s.length s []

/-- Python s.replace(q, "") for a fixed non-empty pattern q: remove every
non-overlapping leftmost occurrence, without rescanning. -/
def removeAllF (q : Str) : Nat → Str → Str
  | _, [] => []
  | 0, s => s
  | fuel + 1, c :: rest =>
    if q.isPrefixOf (c :: rest) then removeAllF q fuel (rest.drop (q.length - 1))
    else c :: removeAllF q fuel rest

/-- Python s.replace(q, "") for non-empty q. -/
def removeAllW (q : Str) (s : Str) : Str := removeAllF q s.length s

/-- The noise-filtered lines of a transcript: ANSI escapes stripped, split
into lines, noise lines discarded (the first loop of DARSTask.run). -/
def deNoise (t : Str) : List Str :=
  (splitLines (strip_ansi_colors t)).filter (fun l => !(isNoise l))

/-- DARSTask.run: de-noise the captured transcript, separate FUNC: lines
from natural-language lines, and emit either the joined natural lines or
the delimited combined string. -/
def DARSTask_run (t : Str) : Str :=
  let kept := deNoise t
  let funcLines := kept.filter (fun l => occurs FUNCpat l)
  let respLines := kept.filter (fun l => !(occurs FUNCpat l))
  if funcLines.isEmpty then joinN respLines
  else FOpat ++ joinN funcLines ++ '\n' :: NATpat ++ joinN respLines

/-- The fixed fallback apology of DARSAgent._parse_response. -/
def apologyMsg : Str :=
  ("I apologize, but I seem to be having trouble processing that request. Could you try again?").data

/-- DARSAgent._parse_response: second-stage parse of the combined string. -/
def parse_response (r : Str) : Str × Option Str :=
  if r.isEmpty || (pyStrip r).isEmpty then (apologyMsg, none)
  else if occurs FOpat r then
    let parts := splitOnW NATpat r
    if parts.length = 2 then
      let funcPart := pyStrip (removeAllW FUNCpat (pyStrip (removeAllW FOpat (parts.headD []))))
      (pyStrip ((parts.drop 1).headD []), some funcPart)
    else (r, none)
  else (r, none)

/-- The two-stage parse: DARSTask.run followed by DARSAgent._parse_response. -/
def twoStageParse (t : Str) : Str × Option Str := parse_response (DARSTask_run t)

/-- One fallback pattern of DARSAgent.separate_function_output: a literal
part followed by one of a list of alternatives, then .* to the end of the
line (DOTALL is off, MULTILINE is on, so a match runs to the next newline
or the end of the string). -/
abbrev SfoPat := Str × List Str

/-- Whether one of the fallback regexes matches at the start of s. -/
def matchAt (p : SfoPat) (s : Str) : Bool :=
  p.2.any (fun a => (p.1 ++ a).isPrefixOf s)

/-- re.search of one fallback pattern: leftmost match, returning group 0
(the matched text up to the end of its line), or none. -/
def reSearch (p : SfoPat) : Str → Option Str
  | [] => none
  | c :: rest =>
    if matchAt p (c :: rest) then some ((c :: rest).takeWhile (fun d => !(d == '\n')))
    else reSearch p rest

/-- re.sub of one fallback pattern with the empty replacement: remove every
match (each running to the end of its line), scanning left to right.  Every
pattern starts with a letter, so a match is never empty and fuel = length
suffices; the newline guard only closes the degenerate empty-match case. -/
def subAllF (p : SfoPat) : Nat → Str → Str
  | _, [] => []
  | 0, s => s
  | fuel + 1, c :: rest =>
    if matchAt p (c :: rest) && !(c == '\n') then
      subAllF p fuel (rest.drop (rest.takeWhile (fun d => !(d == '\n'))).length)
    else c :: subAllF p fuel rest

/-- re.sub of one fallback pattern with the empty replacement. -/
def subAllW (p : SfoPat) (s : Str) : Str := subAllF p s.length s

/-- The fixed fallback pattern table of DARSAgent.separate_function_output,
in source order. -/
def sfoPatterns : List SfoPat :=
  [ ((("Coors Light Sign turned ").data), [("on").data, ("off").data])
  , ((("Hologram Light turned ").data), [("on").data, ("off").data])
  , ((("Room Fan turned ").data), [("on").data, ("off").data])
  , ((("Humor level changed to:").data), [[]])
  , ((("Veridis Quo ").data), [("playing").data, ("stopped").data]) ]

/-- The pattern loop of separate_function_output: first pattern with a
match wins; its first match is the function output and every match of that
pattern is excised from the text, which is then trimmed. -/
def sfoGo : List SfoPat → Str → Str × Option Str
  | [], s => (s, none)
  | p :: ps, s =>
    match reSearch p s with
    | some g => (pyStrip (subAllW p s), some g)
    | none => sfoGo ps s

/-- DARSAgent.separate_function_output (the isinstance guard is enforced by
the type). -/
def separate_function_output (s : Str) : Str × Option Str := sfoGo sfoPatterns s

/-- The five-tier humor description used by both process_message and
HumorLevelTool.handle. -/
def humorContext (n : ℤ) : Str :=
  if n ≤ 20 then ("very serious").data
  else if n ≤ 40 then ("mostly serious").data
  else if n ≤ 60 then ("balanced").data
  else if n ≤ 80 then ("quite humorous").data
  else ("extremely humorous").data

/-- The success sentence of the direct humor-setting path. -/
def adjustVerbal (n : ℤ) : Str :=
  ("I\x27ve adjusted my personality to be ").data ++ humorContext n ++
  (". You should notice a difference in how I communicate now.").data

/-- The function-output string of the direct humor-setting path. -/
def humorFuncStr (n : ℤ) : Str :=
  ("Humor level changed to: ").data ++ (toString n).data ++ ("/100").data

/-- The out-of-range correction message of process_message. -/
def correctionMsg : Str := ("Please provide a humor level between 0 and 100.").data

/-- re.findall of one-or-more-digit runs: maximal runs of ASCII digits, in
order; acc holds the reversed current run. -/
def extractNumsGo : Str → Str → List Str
  | [], acc => if acc.isEmpty then [] else [acc.reverse]
  | c :: rest, acc =>
    if c.isDigit then extractNumsGo rest (c :: acc)
    else if acc.isEmpty then extractNumsGo rest []
    else acc.reverse :: extractNumsGo rest []

/-- re.findall of digit runs in a message. -/
def extractNums (s : Str) : List Str := extractNumsGo s []

/-- The humor-query answer of process_message. -/
def humorQueryMsg (n : ℤ) : Str :=
  ("My humor level is currently set to ").data ++ (toString n).data ++
  ("/100, making me ").data ++ humorContext n ++ (".").data

/-- DARSAgent.process_message, restricted to its directly-handled humor
branches.  Result: (some (natural_language, function_output), new humor
level) when a direct branch answers, (none, unchanged level) when the
message falls through to the LLM task (outside this model).  The int()
ValueError handler is unreachable: a digit run always parses. -/
def process_message (humor : ℤ) (msg : Str) : Option (Str × Option Str) × ℤ :=
  let low := lowerS msg
  let nums := extractNums msg
  if (occurs (("set").data) low || occurs (("change").data) low ||
      occurs (("adjust").data) low) && occurs (("humor").data) low &&
      !(nums.isEmpty) then
    let newLevel : ℤ := (natOfDigits (nums.headD []) : ℤ)
    if 0 ≤ newLevel ∧ newLevel ≤ 100 then
      (some (adjustVerbal newLevel, some (humorFuncStr newLevel)), newLevel)
    else (some (correctionMsg, none), humor)
  else if occurs (("humor").data) low &&
      (occurs (("level").data) low || occurs (("setting").data) low ||
       occurs (("what").data) low || occurs (("how").data) low) then
    (some (humorQueryMsg humor, none), humor)
  else (none, humor)

/-- HumorLevelTool.handle: function output line plus verbal response. -/
def HumorLevelTool_handle (n : ℤ) : Str :=
  ("FUNC: ").data ++ humorFuncStr n ++ '\n' :: adjustVerbal n

/-- Gregorian leap year. -/
def isLeap (y : Nat) : Bool := y % 4 = 0 && (y % 100 ≠ 0 || y % 400 = 0)

/-- Days in a month, as validated by datetime construction. -/
def daysInMonth (y m : Nat) : Nat :=
  if m = 2 then (if isLeap y then 29 else 28)
  else if m = 4 || m = 6 || m = 9 || m = 11 then 30
  else 31

/-- Days since 1970-01-01 of a civil date (standard civil-calendar
conversion; used only on in-range dates, where every division is on
non-negative operands). -/
def daysFromCivil (y m d : Nat) : ℤ :=
  let yi : ℤ := if m ≤ 2 then (y : ℤ) - 1 else (y : ℤ)
  let era : ℤ := (if 0 ≤ yi then yi else yi - 399) / 400
  let yoe : ℤ := yi - era * 400
  let mp : ℤ := ((m : ℤ) + 9) % 12
  let doy : ℤ := (153 * mp + 2) / 5 + (d : ℤ) - 1
  let doe : ℤ := yoe * 365 + yoe / 4 - yoe / 100 + doy
  era * 146097 + doe - 719468

/-- Civil date of a days-since-1970 count (inverse conversion). -/
def civilFromDays (z0 : ℤ) : ℤ × ℤ × ℤ :=
  let z : ℤ := z0 + 719468
  let era : ℤ := (if 0 ≤ z then z else z - 146096) / 146097
  let doe : ℤ := z - era * 146097
  let yoe : ℤ := (doe - doe / 1460 + doe / 36524 - doe / 146096) / 365
  let y : ℤ := yoe + era * 400
  let doy : ℤ := doe - (365 * yoe + yoe / 4 - yoe / 100)
  let mp : ℤ := (5 * doy + 2) / 153
  let d : ℤ := doy - (153 * mp + 2) / 5 + 1
  let m : ℤ := mp + (if mp < 10 then 3 else -9)
  (y + (if m ≤ 2 then 1 else 0), m, d)

/-- Zero-padded decimal rendering of width w. -/
def padNat (w : Nat) (n : Nat) : Str :=
  let s := (toString n).data
  List.replicate (w - s.length) '0' ++ s

/-- strftime of a day count in the %Y-%m-%d format (datetime years are in
1..9999, so the components are non-negative). -/
def fmtDate (z : ℤ) : Str :=
  let c := civilFromDays z
  padNat 4 c.1.toNat ++ '-' :: padNat 2 c.2.1.toNat ++ '-' :: padNat 2 c.2.2.toNat

/-- The month token of strptime %m as used after a literal dash: one digit
1-9 or two digits 01-09, 10, 11, 12. -/
def validMonthTok (t : Str) : Bool :=
  (t.length = 1 || t.length = 2) && 1 ≤ natOfDigits t && natOfDigits t ≤ 12

/-- The day token of strptime %d at the end of the string: one digit 1-9 or
two digits 01-09, 10-29, 30, 31. -/
def validDayTok (t : Str) : Bool :=
  (t.length = 1 || t.length = 2) && 1 ≤ natOfDigits t && natOfDigits t ≤ 31

/-- datetime.strptime(s, the dashed year-month-day format): exactly four
year digits, dash, month token, dash, day token consuming the rest, then
calendar validation by datetime construction (year at least 1, day within
the month).  Returns the parsed date as a day count. -/
def parseDate (s : Str) : Option ℤ :=
  let y4 := s.take 4
  let rest := s.drop 4
  if y4.length = 4 && y4.all Char.isDigit then
    match rest with
    | '-' :: r1 =>
      let mt := r1.takeWhile Char.isDigit
      let r2 := r1.drop mt.length
      if validMonthTok mt then
        match r2 with
        | '-' :: dt =>
          if dt.all Char.isDigit && validDayTok dt then
            let y := natOfDigits y4
            let m := natOfDigits mt
            let d := natOfDigits dt
            if 1 ≤ y ∧ d ≤ daysInMonth y m then some (daysFromCivil y m d)
            else none
          else none
        | _ => none
      else none
    | _ => none
  else none

/-- A row of the todos CSV (columns name, due_date, completed). -/
structure TodoRow where
  name : Str
  due_date : Str
  completed : Str
deriving DecidableEq, Repr

/-- The fields of a TodoTool message. -/
structure TodoMsg where
  operation : Str
  item_name : Option Str := none
  due_date : Option Str := none
deriving DecidableEq, Repr

/-- Python falsiness of an optional string field: None or empty. -/
def falsyO : Option Str → Bool
  | none => true
  | some s => s.isEmpty

/-- The due-date resolution of the todo new branch: natural-language
literals first (tomorrow, next week, today, in source order, checked
case-insensitively on the lowered text), then a strict strptime parse
re-rendered by strftime, else the current date. -/
def resolveDue (cur : ℤ) (dd : Option Str) : Str :=
  if falsyO dd then fmtDate cur
  else
    let t := dd.getD []
    if occurs (("tomorrow").data) (lowerS t) then fmtDate (cur + 1)
    else if occurs (("next week").data) (lowerS t) then fmtDate (cur + 7)
    else if occurs (("today").data) (lowerS t) then fmtDate cur
    else
      match parseDate t with
      | some p => fmtDate p
      | none => fmtDate cur

/-- Case-insensitive substring match of an item name against a row name. -/
def todoNameMatch (item : Str) (r : TodoRow) : Bool :=
  occurs (lowerS item) (lowerS r.name)

/-- The natural-language description of one todo row in the list branch. -/
def todoRowText (r : TodoRow) : Str :=
  ("The task ").data ++ r.name ++ (" is ").data ++
  (if lowerS r.completed = ("true").data then ("completed").data
   else ("not completed").data) ++
  (if !(r.due_date.isEmpty) then (" due on ").data ++ r.due_date else []) ++
  (".").data

/-- The joined sentence list of the todo list branch. -/
def todoListBody : List Str → Str
  | [] => []
  | [x] => x
  | x :: xs => x ++ ' ' :: todoListBody xs

/-- TodoTool.handle over the row state of todos.csv (the file is read in
full and rewritten in full on every mutation; creation of a missing file
yields the empty row list).  In the delete branch the generator expression
recounts an already-exhausted csv reader, so the count is 0 and found is
always false: the file is never rewritten there. -/
def TodoTool_handle (cur : ℤ) (rows : List TodoRow) (m : TodoMsg) :
    Str × List TodoRow :=
  if m.operation = ("new").data then
    if falsyO m.item_name then ((("FUNC: Error: No item name provided").data), rows)
    else
      let item := m.item_name.getD []
      let d := resolveDue cur m.due_date
      ((("FUNC: Added todo item: ").data ++ item ++ (" (Due: ").data ++ d ++ (")").data),
       rows ++ [⟨item, d, ("False").data⟩])
  else if m.operation = ("list").data then
    let todos := rows.map todoRowText
    if todos.isEmpty then
      ((("FUNC: No todos found.\nYou have no tasks on your todo list.").data), rows)
    else if todos.length = 1 then
      ((("FUNC: Current todos:\nYou have one task: ").data ++ todoListBody todos), rows)
    else
      ((("FUNC: Current todos:\nYou have ").data ++ (toString todos.length).data ++
        (" tasks: ").data ++ todoListBody todos), rows)
  else if m.operation = ("complete").data then
    if falsyO m.item_name then ((("FUNC: Error: No item name provided").data), rows)
    else
      let item := m.item_name.getD []
      let found := rows.any (todoNameMatch item)
      let newRows := rows.map (fun r =>
        if todoNameMatch item r then ⟨r.name, r.due_date, ("True").data⟩ else r)
      if found then ((("FUNC: Completed todo item: ").data ++ item), newRows)
      else ((("FUNC: Todo item not found: ").data ++ item), rows)
  else if m.operation = ("delete").data then
    if falsyO m.item_name then ((("FUNC: Error: No item name provided").data), rows)
    else
      let item := m.item_name.getD []
      let newRows := rows.filter (fun r => !(todoNameMatch item r))
      let exhaustedCount : Nat := 0
      let found := decide (newRows.length < exhaustedCount)
      if found then ((("FUNC: Deleted todo item: ").data ++ item), newRows)
      else ((("FUNC: Todo item not found: ").data ++ item), rows)
  else ((("FUNC: Error: Invalid operation").data), rows)

/-- A word character of the filename-sanitising regex class. -/
def isWordChar (c : Char) : Bool :=
  c.isAlpha || c.isDigit || c = '_'

/-- _sanitize_filename: drop characters outside word, whitespace and
hyphen, strip, then turn spaces into underscores. -/
def sanitize_filename (t : Str) : Str :=
  ((pyStrip (t.filter (fun c => isWordChar c || isWS c || c = '-'))).map
    (fun c => if c = ' ' then '_' else c))

/-- The note vault: an association of filenames to file contents. -/
abbrev Vault := List (Str × Str)

/-- File lookup in the vault. -/
def lookupV : Vault → Str → Option Str
  | [], _ => none
  | (k, v) :: rest, key => if k = key then some v else lookupV rest key

/-- write_text: replace the file if present, else create it. -/
def insertV (key val : Str) : Vault → Vault
  | [] => [(key, val)]
  | (k, v) :: rest => if k = key then (key, val) :: rest else (k, v) :: insertV key val rest

/-- unlink: remove the file. -/
def removeV (key : Str) (vault : Vault) : Vault :=
  vault.filter (fun p => !(p.1 = key : Bool))

/-- The fields of a NoteTool message. -/
structure NoteMsg where
  operation : Str
  title : Option Str := none
  content : Option Str := none
  date : Option Str := none
deriving DecidableEq, Repr

/-- The metadata header preserved by the modify branch: the lazy anchored
match of three dashes, newline, anything, newline, three dashes, newline -
i.e. up to the earliest closing delimiter - or empty when absent. -/
def metaHeaderOf (c : Str) : Str :=
  if (("---\n").data).isPrefixOf c then
    let parts := splitOnW (("\n---\n").data) (c.drop 4)
    if 2 ≤ parts.length then
      (("---\n").data) ++ parts.headD [] ++ (("\n---\n").data)
    else []
  else []

/-- The rendered body of a new note. -/
def noteBody (title date content : Str) : Str :=
  ("---\ntitle: ").data ++ title ++ ("\ndate: ").data ++ date ++
  ("\n---\n\n").data ++ content ++ ("\n").data

/-- NoteTool.handle over the vault state.  stamp is the timestamp string
used for a defaulted title; cur is the current day count used for a
defaulted date.  A modify without content falls through the inner if to the
invalid-operation return at the end of the method, like the source. -/
def NoteTool_handle (stamp : Str) (cur : ℤ) (vault : Vault) (m : NoteMsg) :
    Str × Vault :=
  if m.operation = ("new").data then
    let title := if falsyO m.title then ("Note_").data ++ stamp else m.title.getD []
    let content := if falsyO m.content then ("Empty note").data else m.content.getD []
    let date := if falsyO m.date then fmtDate cur else m.date.getD []
    let filename := sanitize_filename title ++ (".md").data
    ((("FUNC: Note created: ").data ++ filename ++
      ("\nI\x27ve created a new note titled \x27").data ++ title ++
      ("\x27 in the vault.").data),
     insertV filename (noteBody title date content) vault)
  else if m.operation = ("read").data then
    if falsyO m.title then
      ((("FUNC: Error: No title provided\nI need a title to read a note.").data), vault)
    else
      let filename := sanitize_filename (m.title.getD []) ++ (".md").data
      match lookupV vault filename with
      | none =>
        ((("FUNC: Error: Note not found\nI couldn\x27t find a note titled \x27").data ++
          m.title.getD [] ++ ("\x27 in the vault.").data), vault)
      | some c => ((("FUNC: NOTE_CONTENT_FOR_PROCESSING\n").data ++ c), vault)
  else if m.operation = ("modify").data then
    if falsyO m.title then
      ((("FUNC: Error: No title provided\nI need a title to modify a note.").data), vault)
    else
      let filename := sanitize_filename (m.title.getD []) ++ (".md").data
      match lookupV vault filename with
      | none =>
        ((("FUNC: Error: Note not found\nI couldn\x27t find a note titled \x27").data ++
          m.title.getD [] ++ ("\x27 to modify.").data), vault)
      | some c =>
        if falsyO m.content then ((("FUNC: Error: Invalid operation\nSorry, I don\x27t recognize that operation. Valid operations are: new, read, modify, delete.").data), vault)
        else
          let newContent := metaHeaderOf c ++ m.content.getD []
          ((("FUNC: Note modified: ").data ++ filename ++
            ("\nI\x27ve updated the content of \x27").data ++ m.title.getD [] ++
            ("\x27.").data),
           insertV filename newContent vault)
  else if m.operation = ("delete").data then
    if falsyO m.title then
      ((("FUNC: Error: No title provided\nI need a title to delete a note.").data), vault)
    else
      let filename := sanitize_filename (m.title.getD []) ++ (".md").data
      match lookupV vault filename with
      | none =>
        ((("FUNC: Error: Note not found\nI couldn\x27t find a note titled \x27").data ++
          m.title.getD [] ++ ("\x27 to delete.").data), vault)
      | some _ =>
        ((("FUNC: Note deleted: ").data ++ filename ++
          ("\nI\x27ve deleted the note \x27").data ++ m.title.getD [] ++
          ("\x27 from the vault.").data), removeV filename vault)
  else ((("FUNC: Error: Invalid operation\nSorry, I don\x27t recognize that operation. Valid operations are: new, read, modify, delete.").data), vault)

/-- A pattern with no non-trivial border: no proper non-empty suffix of q
is also a prefix of q.  The delimiter patterns below satisfy this, which
makes occurrences of q in a string non-overlapping in a strong sense. -/
def noBorder (q : Str) : Prop :=
  ∀ k, k < q.length → 0 < k → ¬ (q.drop k <+: q)

/-! ## Basic string lemmas -/

theorem occurs_iff_exists_drop (q : Str) : ∀ s : Str,
    occurs q s = true ↔ ∃ i, q <+: s.drop i := by
  intro s
  induction s with
  | nil =>
    constructor
    · intro h
      refine ⟨0, ?_⟩
      have : q = [] := by
        cases q with
        | nil => rfl
        | cons a t => simp [occurs, List.isEmpty] at h
      simp [this]
    · rintro ⟨i, hi⟩
      have : q = [] := by simpa using hi
      simp [this, occurs, List.isEmpty]
  | cons c rest ih =>
    simp only [occurs, Bool.or_eq_true, List.isPrefixOf_iff_prefix, ih]
    constructor
    · rintro (h | ⟨i, hi⟩)
      · exact ⟨0, by simpa using h⟩
      · exact ⟨i + 1, by simpa using hi⟩
    · rintro ⟨i, hi⟩
      cases i with
      | zero => exact Or.inl (by simpa using hi)
      | succ j => exact Or.inr ⟨j, by simpa using hi⟩

theorem occurs_of_pfx {q s : Str} (h : q <+: s) : occurs q s = true :=
  (occurs_iff_exists_drop q s).mpr ⟨0, by simpa using h⟩

theorem occurs_of_mid (q x y : Str) : occurs q (x ++ (q ++ y)) = true := by
  refine (occurs_iff_exists_drop q _).mpr ⟨x.length, ?_⟩
  rw [List.drop_left]
  exact List.prefix_append q y

theorem not_pfx_of_occurs_eq_false {q s : Str} (h : occurs q s = false) :
    ¬ q <+: s := by
  intro hp
  rw [occurs_of_pfx hp] at h
  cases h

theorem pfx_append_cons_iff {q : Str} {c : Char} (hc : c ∉ q) :
    ∀ l r : Str, (q <+: l ++ c :: r ↔ q <+: l) := by
  induction q with
  | nil => simp
  | cons a q' ih =>
    intro l r
    have hca : c ≠ a := fun h => hc (h ▸ List.mem_cons_self a q')
    have hcq : c ∉ q' := fun h => hc (List.mem_cons_of_mem a h)
    cases l with
    | nil =>
      simp only [List.nil_append, List.cons_prefix_cons, List.prefix_nil]
      constructor
      · rintro ⟨rfl, -⟩
        exact absurd rfl hca
      · rintro ⟨rfl, h⟩
    | cons b l' =>
      simp only [List.cons_append, List.cons_prefix_cons]
      rw [ih hcq l' r]

theorem occurs_append_cons {q : Str} {c : Char} (hc : c ∉ q) :
    ∀ l r : Str, occurs q (l ++ c :: r) = (occurs q l || occurs q r) := by
  intro l
  induction l with
  | nil =>
    intro r
    cases q with
    | nil => simp [occurs, List.isEmpty, List.isPrefixOf]
    | cons a q' =>
      have hca : (c == a) = false := by
        simp only [beq_eq_false_iff_ne, ne_eq]
        intro h
        exact hc (h ▸ List.mem_cons_self a q')
      simp only [List.nil_append, occurs, List.isPrefixOf, List.isEmpty]
      rw [show (a == c) = false from by
        simp only [beq_eq_false_iff_ne, ne_eq]
        intro h
        exact hc (h ▸ List.mem_cons_self a q')]
      simp
  | cons b l' ih =>
    intro r
    have hbool : q.isPrefixOf ((b :: l') ++ c :: r) = q.isPrefixOf (b :: l') := by
      rw [Bool.eq_iff_iff]
      rw [ List.isPrefixOf_iff_prefix, List.isPrefixOf_iff_prefix]
      exact pfx_append_cons_iff hc (b :: l') r
    have e1 : occurs q ((b :: l') ++ c :: r)
        = (q.isPrefixOf ((b :: l') ++ c :: r) || occurs q (l' ++ c :: r)) := rfl
    have e2 : occurs q (b :: l') = (q.isPrefixOf (b :: l') || occurs q l') := rfl
    rw [e1, hbool, ih r, e2, Bool.or_assoc]

theorem head_mem_of_occurs {c₀ : Char} {q' : Str} : ∀ s : Str,
    occurs (c₀ :: q') s = true → c₀ ∈ s := by
  intro s
  induction s with
  | nil => intro h; simp [occurs, List.isEmpty] at h
  | cons c rest ih =>
    intro h
    simp only [occurs, Bool.or_eq_true] at h
    rcases h with h | h
    · have : c₀ = c := by
        simp only [List.isPrefixOf, Bool.and_eq_true, beq_iff_eq] at h
        exact h.1
      simp [this]
    · exact List.mem_cons_of_mem c (ih h)

theorem pfx_of_append_of_le {q X s : Str} (h : q <+: X ++ s)
    (hl : q.length ≤ X.length) : q <+: X := by
  have h2 := List.prefix_iff_eq_take.mp h
  rw [List.take_append_of_le_length hl] at h2
  rw [h2]
  exact List.take_prefix q.length X

theorem occurs_append_left_false {q : Str} : ∀ P s : Str,
    occurs q P = false →
    (∀ k, k < P.length → P.drop k ≠ q.take (P.length - k)) →
    occurs q s = false → occurs q (P ++ s) = false := by
  intro P
  induction P with
  | nil => intro s _ _ h3; simpa using h3
  | cons p P' ih =>
    intro s h2 h3 h1
    have h2' : occurs q P' = false := by
      have := h2
      simp only [occurs, Bool.or_eq_false_iff] at this
      exact this.2
    have h3' : ∀ k, k < P'.length → P'.drop k ≠ q.take (P'.length - k) := by
      intro k hk
      have := h3 (k + 1) (by simpa using Nat.succ_lt_succ hk)
      simpa using this
    have hrec := ih s h2' h3' h1
    have hnp : q.isPrefixOf ((p :: P') ++ s) = false := by
      by_contra hcon
      have hpf : q <+: (p :: P') ++ s := by
        rw [← List.isPrefixOf_iff_prefix]
        revert hcon
        cases q.isPrefixOf ((p :: P') ++ s) <;> simp
      rcases le_or_lt q.length (p :: P').length with hle | hlt
      · have : q <+: p :: P' := pfx_of_append_of_le hpf hle
        exact absurd (occurs_of_pfx this) (by simp [h2])
      · have hXq : (p :: P') <+: q :=
          List.prefix_of_prefix_length_le (List.prefix_append (p :: P') s) hpf
            (Nat.le_of_lt hlt)
        have := List.prefix_iff_eq_take.mp hXq
        have h0 := h3 0 (by simp)
        simp only [List.drop_zero, Nat.sub_zero] at h0
        exact h0 this
    have e1 : occurs q ((p :: P') ++ s)
        = (q.isPrefixOf ((p :: P') ++ s) || occurs q (P' ++ s)) := rfl
    rw [e1, hnp, hrec]
    rfl

theorem dropWhile_cons_head {p : Char → Bool} : ∀ (l : List Char) (c : Char)
    (t : List Char), l.dropWhile p = c :: t → p c = false := by
  intro l
  induction l with
  | nil => intro c t h; cases h
  | cons a l' ih =>
    intro c t h
    by_cases hp : p a
    · rw [List.dropWhile_cons_of_pos hp] at h
      exact ih _ _ h
    · rw [List.dropWhile_cons_of_neg hp] at h
      cases h
      simpa using hp

theorem pyStrip_all_ws {s : Str} (h : ∀ c ∈ s, isWS c = true) : pyStrip s = [] := by
  unfold pyStrip trimR
  have h1 : s.reverse.dropWhile isWS = [] :=
    List.dropWhile_eq_nil_iff.mpr (fun x hx => h x (List.mem_reverse.mp hx))
  rw [h1]
  rfl

theorem pyStrip_ne_nil {s : Str} (h : ∃ c ∈ s, isWS c = false) : pyStrip s ≠ [] := by
  obtain ⟨c, hc, hcw⟩ := h
  unfold pyStrip trimR
  have h1 : s.reverse.dropWhile isWS ≠ [] := by
    intro hz
    have := List.dropWhile_eq_nil_iff.mp hz c (List.mem_reverse.mpr hc)
    rw [this] at hcw
    cases hcw
  obtain ⟨d, t, hdt⟩ : ∃ d t, s.reverse.dropWhile isWS = d :: t := by
    cases hh : s.reverse.dropWhile isWS with
    | nil => exact absurd hh h1
    | cons d t => exact ⟨d, t, rfl⟩
  have hd : isWS d = false := dropWhile_cons_head _ _ _ hdt
  rw [hdt]
  intro hz
  have := List.dropWhile_eq_nil_iff.mp hz d (by simp)
  rw [this] at hd
  cases hd

theorem exists_not_ws_of_pyStrip_ne_nil {s : Str} (h : pyStrip s ≠ []) :
    ∃ c ∈ s, isWS c = false := by
  by_contra hcon
  push_neg at hcon
  exact h (pyStrip_all_ws (fun c hc => by
    have := hcon c hc
    cases hw : isWS c with
    | false => exact absurd hw this
    | true => rfl))

theorem pyStrip_append_ws {s : Str} {c : Char} (hc : isWS c = true) :
    pyStrip (s ++ [c]) = pyStrip s := by
  unfold pyStrip trimR
  rw [List.reverse_append, List.reverse_singleton, List.singleton_append,
    List.dropWhile_cons_of_pos hc]

theorem mem_joinN : ∀ (L : List Str) (l : Str), l ∈ L → ∀ c ∈ l, c ∈ joinN L := by
  intro L
  induction L with
  | nil => intro l h; cases h
  | cons x xs ih =>
    intro l hl c hc
    cases xs with
    | nil =>
      have hx : l = x := by simpa using hl
      subst hx
      simpa [joinN] using hc
    | cons y ys =>
      rcases List.mem_cons.mp hl with hx | h2
      · subst hx
        simp only [joinN, List.mem_append]
        exact Or.inl hc
      · have := ih l h2 c hc
        simp only [joinN, List.mem_append, List.mem_cons]
        exact Or.inr (Or.inr this)

theorem occurs_joinN {q : Str} (hq : q ≠ []) (hnl : '\n' ∉ q) :
    ∀ L : List Str, (∀ l ∈ L, occurs q l = false) → occurs q (joinN L) = false := by
  intro L
  induction L with
  | nil =>
    intro _
    cases q with
    | nil => exact absurd rfl hq
    | cons a t => simp [joinN, occurs, List.isEmpty]
  | cons x xs ih =>
    intro h
    cases xs with
    | nil => simpa [joinN] using h x (by simp)
    | cons y ys =>
      have hx : occurs q x = false := h x (by simp)
      have hrest : occurs q (joinN (y :: ys)) = false :=
        ih (fun l hl => h l (List.mem_cons_of_mem x hl))
      show occurs q (x ++ '\n' :: joinN (y :: ys)) = false
      rw [occurs_append_cons hnl, hx, hrest]
      rfl

theorem splitF_nil (q : Str) (f : Nat) (acc : Str) :
    splitOnF q f [] acc = [acc.reverse] := by
  simp [splitOnF]

theorem splitF_fuel_eq (q : Str) : ∀ f₁ f₂ s acc, s.length ≤ f₁ → s.length ≤ f₂ →
    splitOnF q f₁ s acc = splitOnF q f₂ s acc := by
  intro f₁
  induction f₁ with
  | zero =>
    intro f₂ s acc h1 _
    have : s = [] := List.length_eq_zero.mp (Nat.le_zero.mp h1)
    subst this
    rw [splitF_nil, splitF_nil]
  | succ f ih =>
    intro f₂ s acc h1 h2
    cases s with
    | nil => rw [splitF_nil, splitF_nil]
    | cons c rest =>
      obtain ⟨f₂', rfl⟩ : ∃ f₂', f₂ = f₂' + 1 := by
        cases f₂ with
        | zero => simp at h2
        | succ k => exact ⟨k, rfl⟩
      by_cases hp : q.isPrefixOf (c :: rest) = true
      · simp only [splitOnF, hp, if_pos]
        have hb : (rest.drop (q.length - 1)).length ≤ f := by
          have := List.length_drop (q.length - 1) rest
          simp only [List.length_cons] at h1
          omega
        have hb2 : (rest.drop (q.length - 1)).length ≤ f₂' := by
          have := List.length_drop (q.length - 1) rest
          simp only [List.length_cons] at h2
          omega
        rw [ih f₂' _ [] hb hb2]
      · have hp' : q.isPrefixOf (c :: rest) = false := by
          cases hh : q.isPrefixOf (c :: rest)
          · rfl
          · exact absurd hh hp
        simp only [splitOnF, hp', Bool.false_eq_true, if_false]
        have hb : rest.length ≤ f := by simp only [List.length_cons] at h1; omega
        have hb2 : rest.length ≤ f₂' := by simp only [List.length_cons] at h2; omega
        exact ih f₂' rest (c :: acc) hb hb2

theorem splitF_noocc (q : Str) : ∀ f s acc, s.length ≤ f → occurs q s = false →
    splitOnF q f s acc = [acc.reverse ++ s] := by
  intro f
  induction f with
  | zero =>
    intro s acc h1 _
    have : s = [] := List.length_eq_zero.mp (Nat.le_zero.mp h1)
    subst this
    rw [splitF_nil, List.append_nil]
  | succ f ih =>
    intro s acc h1 h2
    cases s with
    | nil => rw [splitF_nil, List.append_nil]
    | cons c rest =>
      have hocc : (q.isPrefixOf (c :: rest) || occurs q rest) = false := h2
      have hp : q.isPrefixOf (c :: rest) = false := by
        cases hh : q.isPrefixOf (c :: rest)
        · rfl
        · rw [hh] at hocc; cases hocc
      have hr : occurs q rest = false := by
        rw [hp] at hocc
        simpa using hocc
      simp only [splitOnF, hp, Bool.false_eq_true, if_false]
      rw [ih rest (c :: acc) (by simp only [List.length_cons] at h1; omega) hr]
      simp

theorem splitW_noocc {q s : Str} (h : occurs q s = false) : splitOnW q s = [s] := by
  unfold splitOnW
  rw [splitF_noocc q s.length s [] (le_refl _) h]
  rfl

theorem no_pfx_mid {q A B : Str} (hA0 : A ≠ []) (hb : noBorder q)
    (hA : occurs q A = false) : ¬ q <+: A ++ q ++ B := by
  intro h
  rcases le_or_lt q.length A.length with hle | hlt
  · have h2 : q <+: A := by
      rw [List.append_assoc] at h
      exact pfx_of_append_of_le h hle
    exact absurd (occurs_of_pfx h2) (by simp [hA])
  · have hApf : A <+: A ++ q ++ B := by
      rw [List.append_assoc]
      exact List.prefix_append A (q ++ B)
    have hAq : A <+: q := List.prefix_of_prefix_length_le hApf h (Nat.le_of_lt hlt)
    obtain ⟨t, ht⟩ := hAq
    have htq : t <+: q ++ B := by
      obtain ⟨u, hu⟩ := h
      nth_rewrite 1 [← ht] at hu
      have hu2 : A ++ (t ++ u) = A ++ (q ++ B) := by
        rw [← List.append_assoc, hu, List.append_assoc]
      exact ⟨u, List.append_cancel_left hu2⟩
    have hlen : A.length + t.length = q.length := by
      rw [← ht]
      simp
    have hApos : 0 < A.length := List.length_pos.mpr hA0
    have htq2 : t <+: q :=
      List.prefix_of_prefix_length_le htq (List.prefix_append q B) (by omega)
    have hdrop : q.drop A.length = t := by
      rw [← ht]
      exact List.drop_left A t
    exact hb A.length (by omega) hApos (by rw [hdrop]; exact htq2)

theorem splitF_append {q A B : Str} (hq : q ≠ []) (hb : noBorder q)
    (hA : occurs q A = false) : ∀ f acc, (A ++ q ++ B).length ≤ f →
    splitOnF q f (A ++ q ++ B) acc = (acc.reverse ++ A) :: splitOnW q B := by
  induction A with
  | nil =>
    intro f acc hf
    obtain ⟨c₀, q', rfl⟩ : ∃ c₀ q', q = c₀ :: q' := by
      cases q with
      | nil => exact absurd rfl hq
      | cons a t => exact ⟨a, t, rfl⟩
    obtain ⟨f', rfl⟩ : ∃ f', f = f' + 1 := by
      cases f with
      | zero => simp at hf
      | succ k => exact ⟨k, rfl⟩
    have hp : (c₀ :: q').isPrefixOf ([] ++ (c₀ :: q') ++ B) = true := by
      rw [ List.isPrefixOf_iff_prefix, List.nil_append]
      exact List.prefix_append (c₀ :: q') B
    simp only [List.nil_append, List.cons_append] at hp ⊢
    simp only [splitOnF, hp, if_pos]
    have hdrop : (q' ++ B).drop ((c₀ :: q').length - 1) = B := by
      simp only [List.length_cons, Nat.add_sub_cancel]
      exact List.drop_left q' B
    rw [hdrop]
    have hbound : B.length ≤ f' := by
      simp only [List.length_cons, List.length_append] at hf
      omega
    rw [splitF_fuel_eq (c₀ :: q') f' B.length B [] hbound (le_refl _)]
    simp [splitOnW, List.append_nil]
  | cons a A' ih =>
    intro f acc hf
    obtain ⟨f', rfl⟩ : ∃ f', f = f' + 1 := by
      cases f with
      | zero => simp at hf
      | succ k => exact ⟨k, rfl⟩
    have hnp : q.isPrefixOf ((a :: A') ++ q ++ B) = false := by
      cases hh : q.isPrefixOf ((a :: A') ++ q ++ B)
      · rfl
      · have := no_pfx_mid (q := q) (A := a :: A') (B := B) (by simp) hb hA
        rw [ List.isPrefixOf_iff_prefix] at hh
        exact absurd hh this
    have hA' : occurs q A' = false := by
      have : (q.isPrefixOf (a :: A') || occurs q A') = false := hA
      cases hh : occurs q A'
      · rfl
      · rw [hh] at this; simp at this
    have hstep : (a :: A') ++ q ++ B = a :: (A' ++ q ++ B) := by simp
    rw [hstep]
    rw [hstep] at hnp
    simp only [splitOnF, hnp, Bool.false_eq_true, if_false]
    rw [ih hA' f' (a :: acc) (by simp only [hstep, List.length_cons] at hf; omega)]
    simp

theorem splitW_append {q A B : Str} (hq : q ≠ []) (hb : noBorder q)
    (hA : occurs q A = false) :
    splitOnW q (A ++ q ++ B) = A :: splitOnW q B := by
  have h := splitF_append hq hb hA (A ++ q ++ B).length [] (le_refl _)
  simpa [splitOnW] using h

theorem removeF_nil (q : Str) (f : Nat) : removeAllF q f [] = [] := by
  simp [removeAllF]

theorem removeF_fuel_eq (q : Str) : ∀ f₁ f₂ s, s.length ≤ f₁ → s.length ≤ f₂ →
    removeAllF q f₁ s = removeAllF q f₂ s := by
  intro f₁
  induction f₁ with
  | zero =>
    intro f₂ s h1 _
    have : s = [] := List.length_eq_zero.mp (Nat.le_zero.mp h1)
    subst this
    rw [removeF_nil, removeF_nil]
  | succ f ih =>
    intro f₂ s h1 h2
    cases s with
    | nil => rw [removeF_nil, removeF_nil]
    | cons c rest =>
      obtain ⟨f₂', rfl⟩ : ∃ f₂', f₂ = f₂' + 1 := by
        cases f₂ with
        | zero => simp at h2
        | succ k => exact ⟨k, rfl⟩
      by_cases hp : q.isPrefixOf (c :: rest) = true
      · simp only [removeAllF, hp, if_pos]
        have hb : (rest.drop (q.length - 1)).length ≤ f := by
          have := List.length_drop (q.length - 1) rest
          simp only [List.length_cons] at h1
          omega
        have hb2 : (rest.drop (q.length - 1)).length ≤ f₂' := by
          have := List.length_drop (q.length - 1) rest
          simp only [List.length_cons] at h2
          omega
        rw [ih f₂' _ hb hb2]
      · have hp' : q.isPrefixOf (c :: rest) = false := by
          cases hh : q.isPrefixOf (c :: rest)
          · rfl
          · exact absurd hh hp
        simp only [removeAllF, hp', Bool.false_eq_true, if_false]
        have hb : rest.length ≤ f := by simp only [List.length_cons] at h1; omega
        have hb2 : rest.length ≤ f₂' := by simp only [List.length_cons] at h2; omega
        rw [ih f₂' rest hb hb2]

theorem removeF_noocc (q : Str) : ∀ f s, s.length ≤ f → occurs q s = false →
    removeAllF q f s = s := by
  intro f
  induction f with
  | zero =>
    intro s h1 _
    have : s = [] := List.length_eq_zero.mp (Nat.le_zero.mp h1)
    subst this
    rw [removeF_nil]
  | succ f ih =>
    intro s h1 h2
    cases s with
    | nil => rw [removeF_nil]
    | cons c rest =>
      have hocc : (q.isPrefixOf (c :: rest) || occurs q rest) = false := h2
      have hp : q.isPrefixOf (c :: rest) = false := by
        cases hh : q.isPrefixOf (c :: rest)
        · rfl
        · rw [hh] at hocc; cases hocc
      have hr : occurs q rest = false := by
        rw [hp] at hocc
        simpa using hocc
      simp only [removeAllF, hp, Bool.false_eq_true, if_false]
      rw [ih rest (by simp only [List.length_cons] at h1; omega) hr]

theorem removeW_noocc {q s : Str} (h : occurs q s = false) : removeAllW q s = s :=
  removeF_noocc q s.length s (le_refl _) h

theorem removeW_cons_append {q s : Str} (hq : q ≠ []) :
    removeAllW q (q ++ s) = removeAllW q s := by
  obtain ⟨c₀, q', rfl⟩ : ∃ c₀ q', q = c₀ :: q' := by
    cases q with
    | nil => exact absurd rfl hq
    | cons a t => exact ⟨a, t, rfl⟩
  have hp : (c₀ :: q').isPrefixOf ((c₀ :: q') ++ s) = true := by
    rw [ List.isPrefixOf_iff_prefix]
    exact List.prefix_append (c₀ :: q') s
  show removeAllF (c₀ :: q') ((c₀ :: q') ++ s).length ((c₀ :: q') ++ s) = removeAllW (c₀ :: q') s
  have hlen : ((c₀ :: q') ++ s).length = (q' ++ s).length + 1 := by simp
  rw [hlen]
  have hcons : (c₀ :: q') ++ s = c₀ :: (q' ++ s) := by simp
  rw [hcons] at hp ⊢
  simp only [removeAllF, hp, if_pos]
  have hdrop : (q' ++ s).drop ((c₀ :: q').length - 1) = s := by
    simp only [List.length_cons, Nat.add_sub_cancel]
    exact List.drop_left q' s
  rw [hdrop]
  exact removeF_fuel_eq (c₀ :: q') (q' ++ s).length s.length s (by simp) (le_refl _)

/-! ## Claim C1 -/

/-- Claim C1 (amended): for every raw turn transcript none of whose lines
(after ANSI stripping) contains the marker FUNC:, provided at least one
line survives de-noising and the de-noised text does not itself contain the
internal delimiter pair (an occurrence of FUNCTION_OUTPUT: together with
exactly one occurrence of NATURAL_OUTPUT:), the two-stage parse returns the
full de-noised text (noise lines discarded, remaining lines joined by
newline) as the natural language, with function output absent.  The two
provisos are forced: an all-noise transcript triggers the apology fallback,
and delimiter text in a line is re-parsed as a function output. -/
theorem C1_no_marker_full_denoised (t : Str)
    (h1 : ∀ l ∈ splitLines (strip_ansi_colors t), occurs FUNCpat l = false)
    (h2 : deNoise t ≠ [])
    (h3 : ¬ (occurs FOpat (joinN (deNoise t)) = true ∧
      (splitOnW NATpat (joinN (deNoise t))).length = 2)) :
    twoStageParse t = (joinN (deNoise t), none) := by
  have hkept : ∀ l ∈ deNoise t, occurs FUNCpat l = false :=
    fun l hl => h1 l (List.mem_of_mem_filter hl)
  have hfuncs : (deNoise t).filter (fun l => occurs FUNCpat l) = [] :=
    List.filter_eq_nil_iff.mpr (fun l hl => by simp [hkept l hl])
  have hresp : (deNoise t).filter (fun l => !(occurs FUNCpat l)) = deNoise t :=
    List.filter_eq_self.mpr (fun l hl => by simp [hkept l hl])
  have hrun : DARSTask_run t = joinN (deNoise t) := by
    simp only [DARSTask_run]
    rw [hfuncs, hresp]
    simp
  obtain ⟨l0, hl0⟩ := List.exists_mem_of_ne_nil _ h2
  have hnotnoise : isNoise l0 = false := by
    have := List.of_mem_filter hl0
    simpa using this
  have hstripne : pyStrip l0 ≠ [] := by
    intro hnil
    simp only [isNoise, hnil, Bool.or_eq_false_iff] at hnotnoise
    simp [List.isEmpty] at hnotnoise
  obtain ⟨c, hc, hcw⟩ := exists_not_ws_of_pyStrip_ne_nil hstripne
  have hcJ : c ∈ joinN (deNoise t) := mem_joinN _ l0 hl0 c hc
  have hJne : joinN (deNoise t) ≠ [] := by
    intro h
    rw [h] at hcJ
    exact (List.not_mem_nil c) hcJ
  have hJstrip : pyStrip (joinN (deNoise t)) ≠ [] := pyStrip_ne_nil ⟨c, hcJ, hcw⟩
  have hJe : (joinN (deNoise t)).isEmpty = false := by
    cases hh : joinN (deNoise t) with
    | nil => exact absurd hh hJne
    | cons a b => rfl
  have hJs : (pyStrip (joinN (deNoise t))).isEmpty = false := by
    cases hh : pyStrip (joinN (deNoise t)) with
    | nil => exact absurd hh hJstrip
    | cons a b => rfl
  show parse_response (DARSTask_run t) = (joinN (deNoise t), none)
  rw [hrun]
  by_cases hFO : occurs FOpat (joinN (deNoise t)) = true
  · have hlen : ((splitOnW NATpat (joinN (deNoise t))).length = 2) = False := by
      simp only [eq_iff_iff, iff_false]
      intro hl
      exact h3 ⟨hFO, hl⟩
    simp [parse_response, hJe, hJs, hFO, hlen]
  · have hFO' : occurs FOpat (joinN (deNoise t)) = false := by
      cases hh : occurs FOpat (joinN (deNoise t))
      · rfl
      · exact absurd hh hFO
    simp [parse_response, hJe, hJs, hFO']

/-- Witness for C1: the amended theorem applied to a one-line transcript. -/
theorem C1_no_marker_full_denoised_witness :
    twoStageParse (("hello").data) = (joinN (deNoise (("hello").data)), none) :=
  C1_no_marker_full_denoised (("hello").data) (by decide) (by decide) (by decide)

/-- Counterexample to claim C1 as stated: this transcript has no line
containing FUNC:, yet the two-stage parse does not return the de-noised
text with absent function output - the delimiter-shaped text is re-parsed,
yielding function output "a". -/
theorem C1_counterexample :
    (∀ l ∈ splitLines (strip_ansi_colors (("FUNCTION_OUTPUT:a\nNATURAL_OUTPUT:b").data)),
      occurs FUNCpat l = false) ∧
    twoStageParse (("FUNCTION_OUTPUT:a\nNATURAL_OUTPUT:b").data) ≠
      (joinN (deNoise (("FUNCTION_OUTPUT:a\nNATURAL_OUTPUT:b").data)), none) ∧
    (twoStageParse (("FUNCTION_OUTPUT:a\nNATURAL_OUTPUT:b").data)).2 = some (("a").data) := by
  decide

/-! ## Claim C2 -/

/-- The NATURAL_OUTPUT: delimiter has no non-trivial border. -/
theorem noBorder_NATpat : noBorder NATpat := by
  unfold noBorder NATpat
  decide

/-- Claim C2 (amended): for every raw turn transcript whose de-noised lines
contain exactly one line with the marker FUNC:, provided no de-noised line
contains the internal delimiter NATURAL_OUTPUT: and the marker line does
not contain FUNCTION_OUTPUT:, the two-stage parse returns as function
output the marker line, trimmed, with every FUNC: occurrence removed and
trimmed again, and as natural language the remaining de-noised lines
joined by newline and trimmed.  The trimming and the delimiter provisos
are forced by the counterexample: the source strips both parts and
re-splits on delimiter text. -/
theorem C2_single_marker_split (t : Str) (f : Str)
    (h1 : (deNoise t).filter (fun l => occurs FUNCpat l) = [f])
    (h2 : ∀ l ∈ deNoise t, occurs NATpat l = false)
    (h3 : occurs FOpat f = false) :
    twoStageParse t =
      (pyStrip (joinN ((deNoise t).filter (fun l => !(occurs FUNCpat l)))),
       some (pyStrip (removeAllW FUNCpat (pyStrip f)))) := by
  have hrun : DARSTask_run t =
      FOpat ++ f ++ '\n' :: NATpat ++
        joinN ((deNoise t).filter (fun l => !(occurs FUNCpat l))) := by
    simp only [DARSTask_run]
    rw [h1]
    simp [joinN]
  have hform : DARSTask_run t =
      (FOpat ++ f ++ ['\n']) ++ NATpat ++
        joinN ((deNoise t).filter (fun l => !(occurs FUNCpat l))) := by
    rw [hrun]
    simp
  have hf_in : f ∈ deNoise t := by
    have : f ∈ (deNoise t).filter (fun l => occurs FUNCpat l) := by
      rw [h1]
      simp
    exact List.mem_of_mem_filter this
  have hNf : occurs NATpat f = false := h2 f hf_in
  have hNfn : occurs NATpat (f ++ ['\n']) = false := by
    rw [show (['\n'] : Str) = '\n' :: [] from rfl,
      occurs_append_cons (by decide : '\n' ∉ NATpat) f [], hNf]
    decide
  have hNA : occurs NATpat (FOpat ++ (f ++ ['\n'])) = false :=
    occurs_append_left_false FOpat (f ++ ['\n'])
      (by decide)
      (by decide)
      hNfn
  have hNA2 : occurs NATpat (FOpat ++ f ++ ['\n']) = false := by
    rw [List.append_assoc]
    exact hNA
  have hNB : occurs NATpat
      (joinN ((deNoise t).filter (fun l => !(occurs FUNCpat l)))) = false :=
    occurs_joinN (by decide) (by decide) _
      (fun l hl => h2 l (List.mem_of_mem_filter hl))
  have hsplit : splitOnW NATpat ((FOpat ++ f ++ ['\n']) ++ NATpat ++
      joinN ((deNoise t).filter (fun l => !(occurs FUNCpat l)))) =
      [FOpat ++ f ++ ['\n'],
       joinN ((deNoise t).filter (fun l => !(occurs FUNCpat l)))] := by
    rw [splitW_append (by decide) noBorder_NATpat hNA2]
    rw [splitW_noocc hNB]
  have hCcons : (FOpat ++ f ++ ['\n']) ++ NATpat ++
      joinN ((deNoise t).filter (fun l => !(occurs FUNCpat l))) =
      'F' :: ((("UNCTION_OUTPUT:").data ++ f ++ ['\n']) ++ NATpat ++
        joinN ((deNoise t).filter (fun l => !(occurs FUNCpat l)))) := by
    rw [show FOpat = 'F' :: ("UNCTION_OUTPUT:").data from rfl]
    simp
  have hCe : ((FOpat ++ f ++ ['\n']) ++ NATpat ++
      joinN ((deNoise t).filter (fun l => !(occurs FUNCpat l)))).isEmpty = false := by
    rw [hCcons]
    rfl
  have hCs : (pyStrip ((FOpat ++ f ++ ['\n']) ++ NATpat ++
      joinN ((deNoise t).filter (fun l => !(occurs FUNCpat l))))).isEmpty = false := by
    have hne : pyStrip ((FOpat ++ f ++ ['\n']) ++ NATpat ++
        joinN ((deNoise t).filter (fun l => !(occurs FUNCpat l)))) ≠ [] := by
      apply pyStrip_ne_nil
      refine ⟨'F', ?_, by decide⟩
      rw [hCcons]
      exact List.mem_cons_self _ _
    cases hh : pyStrip ((FOpat ++ f ++ ['\n']) ++ NATpat ++
        joinN ((deNoise t).filter (fun l => !(occurs FUNCpat l)))) with
    | nil => exact absurd hh hne
    | cons a b => rfl
  have hFOC : occurs FOpat ((FOpat ++ f ++ ['\n']) ++ NATpat ++
      joinN ((deNoise t).filter (fun l => !(occurs FUNCpat l)))) = true := by
    apply occurs_of_pfx
    have hple := List.prefix_append FOpat ((f ++ ['\n']) ++ NATpat ++
      joinN ((deNoise t).filter (fun l => !(occurs FUNCpat l))))
    have heq : FOpat ++ ((f ++ ['\n']) ++ NATpat ++
        joinN ((deNoise t).filter (fun l => !(occurs FUNCpat l)))) =
        (FOpat ++ f ++ ['\n']) ++ NATpat ++
          joinN ((deNoise t).filter (fun l => !(occurs FUNCpat l))) := by
      simp
    rw [heq] at hple
    exact hple
  have hremA : removeAllW FOpat (FOpat ++ f ++ ['\n']) = f ++ ['\n'] := by
    rw [show FOpat ++ f ++ ['\n'] = FOpat ++ (f ++ ['\n']) from by simp,
      removeW_cons_append (by decide)]
    apply removeW_noocc
    rw [show (['\n'] : Str) = '\n' :: [] from rfl,
      occurs_append_cons (by decide : '\n' ∉ FOpat) f [], h3]
    decide
  have hstripA : pyStrip (f ++ ['\n']) = pyStrip f :=
    pyStrip_append_ws (by decide)
  show parse_response (DARSTask_run t) = _
  rw [hform]
  simp only [parse_response, hCe, hCs, Bool.or_self, Bool.false_eq_true, if_false,
    hFOC, if_true, hsplit, List.length_cons, List.length_nil, List.headD,
    List.drop_succ_cons, List.drop_zero, hremA, hstripA]

/-- Witness for C2: the amended theorem applied to a transcript with one
marker line and one natural line. -/
theorem C2_single_marker_split_witness :
    twoStageParse (("FUNC: done\nall set").data) =
      (pyStrip (joinN ((deNoise (("FUNC: done\nall set").data)).filter
        (fun l => !(occurs FUNCpat l)))),
       some (pyStrip (removeAllW FUNCpat (pyStrip (("FUNC: done").data))))) :=
  C2_single_marker_split (("FUNC: done\nall set").data) (("FUNC: done").data)
    (by decide) (by decide) (by decide)

/-- Counterexample to claim C2 as stated: this transcript has exactly one
non-noise line with the marker FUNC:, the remaining non-noise lines joined
by newline are " hi" (with a leading space), but the parse returns the
stripped "hi" as the natural language, not the joined lines. -/
theorem C2_counterexample :
    (deNoise (("FUNC:x\n hi").data)).filter (fun l => occurs FUNCpat l) =
      [("FUNC:x").data] ∧
    joinN ((deNoise (("FUNC:x\n hi").data)).filter (fun l => !(occurs FUNCpat l))) =
      (" hi").data ∧
    twoStageParse (("FUNC:x\n hi").data) = ((("hi").data), some (("x").data)) ∧
    ((("hi").data) : Str) ≠ (" hi").data := by
  decide

/-! ## Claim C3 -/

/-- Claim C3 (amended): if the combined string consumed by the second-stage
parser (DARSAgent._parse_response) is empty or whitespace-only, the parser
returns the fixed fallback apology and absent function output.  The claim
as stated - substituting the apology whenever the RESULTING natural
segment is whitespace-only - is false: the emptiness test applies to the
parser input, not to the natural segment produced by a delimiter split. -/
theorem C3_blank_input_apology (r : Str) (h : pyStrip r = []) :
    parse_response r = (apologyMsg, none) := by
  have he : (pyStrip r).isEmpty = true := by
    rw [h]
    rfl
  simp [parse_response, he]

/-- Witness for C3: a whitespace-only input yields the apology. -/
theorem C3_blank_input_apology_witness :
    parse_response (("  ").data) = (apologyMsg, none) :=
  C3_blank_input_apology (("  ").data) (by decide)

/-- Counterexample to claim C3 as stated: for this combined string the
resulting natural-language segment is empty after stripping, yet the
parser returns that empty segment with a present function output rather
than the apology with absent output. -/
theorem C3_counterexample :
    parse_response (("FUNCTION_OUTPUT:FUNC:x\nNATURAL_OUTPUT:  ").data) =
      (([] : Str), some (("x").data)) ∧
    (([] : Str)) ≠ apologyMsg := by
  decide

/-! ## Claim C4 -/

/-- A fallback pattern whose literal starts with a character absent from
the input never matches. -/
theorem reSearch_none_of_head (c₀ : Char) (q' : Str) (alts : List Str) :
    ∀ s : Str, c₀ ∉ s → reSearch (c₀ :: q', alts) s = none := by
  intro s
  induction s with
  | nil => intro _; rfl
  | cons c rest ih =>
    intro hc
    have hm : matchAt (c₀ :: q', alts) (c :: rest) = false := by
      simp only [matchAt, List.any_eq_false]
      intro a _
      show ¬((c₀ :: q' ++ a).isPrefixOf (c :: rest) = true)
      intro hp
      rw [ List.isPrefixOf_iff_prefix, List.cons_append, List.cons_prefix_cons] at hp
      exact hc (hp.1 ▸ List.mem_cons_self c rest)
    simp only [reSearch, hm, Bool.false_eq_true, if_false]
    exact ih (fun h => hc (List.mem_cons_of_mem c h))

/-- Claim C4 (amended): the fallback matching of
DARSAgent.separate_function_output is case-SENSITIVE, not case-insensitive:
any input lacking the capital initials of the pattern table (in particular
any all-lowercase input) is returned unchanged with absent function
output, while a confirmation sentence in the exact casing emitted by the
tools is extracted as function output with the trimmed remainder as
natural language. -/
theorem C4_case_sensitive_matching :
    (∀ s : Str, 'C' ∉ s → 'H' ∉ s → 'R' ∉ s → 'V' ∉ s →
      separate_function_output s = (s, none)) ∧
    separate_function_output (("Okay.\nCoors Light Sign turned on\nEnjoy.").data) =
      ((("Okay.\n\nEnjoy.").data), some (("Coors Light Sign turned on").data)) := by
  constructor
  · intro s hC hH hR hV
    have r1 : reSearch ((("Coors Light Sign turned ").data),
        [("on").data, ("off").data]) s = none := by
      rw [show (("Coors Light Sign turned ").data) =
        'C' :: (("oors Light Sign turned ").data) from rfl]
      exact reSearch_none_of_head 'C' _ _ s hC
    have r2 : reSearch ((("Hologram Light turned ").data),
        [("on").data, ("off").data]) s = none := by
      rw [show (("Hologram Light turned ").data) =
        'H' :: (("ologram Light turned ").data) from rfl]
      exact reSearch_none_of_head 'H' _ _ s hH
    have r3 : reSearch ((("Room Fan turned ").data),
        [("on").data, ("off").data]) s = none := by
      rw [show (("Room Fan turned ").data) =
        'R' :: (("oom Fan turned ").data) from rfl]
      exact reSearch_none_of_head 'R' _ _ s hR
    have r4 : reSearch ((("Humor level changed to:").data), [([] : Str)]) s = none := by
      rw [show (("Humor level changed to:").data) =
        'H' :: (("umor level changed to:").data) from rfl]
      exact reSearch_none_of_head 'H' _ _ s hH
    have r5 : reSearch ((("Veridis Quo ").data),
        [("playing").data, ("stopped").data]) s = none := by
      rw [show (("Veridis Quo ").data) = 'V' :: (("eridis Quo ").data) from rfl]
      exact reSearch_none_of_head 'V' _ _ s hV
    simp only [separate_function_output, sfoPatterns, sfoGo, r1, r2, r3, r4, r5]
  · decide

/-- Witness for C4: an input without the capital initials passes through. -/
theorem C4_case_sensitive_matching_witness :
    separate_function_output (("hello there").data) = ((("hello there").data), none) :=
  C4_case_sensitive_matching.1 (("hello there").data)
    (by decide) (by decide) (by decide) (by decide)

/-- Counterexample to claim C4 as stated: the appliance confirmation
sentence written in lower case is NOT extracted - the matcher returns the
whole input as natural language with absent function output, so the
fallback matching is not case-insensitive. -/
theorem C4_counterexample :
    separate_function_output (("coors light sign turned on").data) =
      ((("coors light sign turned on").data), none) := by
  decide

/-! ## Claim C5 -/

/-- Claim C5: the humor-level tier mapping (shared by
DARSAgent.process_message and HumorLevelTool.handle) is total on [0,100]
and boundary-correct with closed ranges: [0,20] maps exactly to "very
serious", [21,40] to "mostly serious", [41,60] to "balanced", [61,80] to
"quite humorous" and [81,100] to "extremely humorous". -/
theorem C5_humor_tiers (n : ℤ) (h0 : 0 ≤ n) (h100 : n ≤ 100) :
    ((0 ≤ n ∧ n ≤ 20) ↔ humorContext n = ("very serious").data) ∧
    ((21 ≤ n ∧ n ≤ 40) ↔ humorContext n = ("mostly serious").data) ∧
    ((41 ≤ n ∧ n ≤ 60) ↔ humorContext n = ("balanced").data) ∧
    ((61 ≤ n ∧ n ≤ 80) ↔ humorContext n = ("quite humorous").data) ∧
    ((81 ≤ n ∧ n ≤ 100) ↔ humorContext n = ("extremely humorous").data) := by
  interval_cases n <;> decide

/-- Witness for C5: the boundary value 20 is "very serious". -/
theorem C5_humor_tiers_witness :
    ((0 ≤ (20 : ℤ) ∧ (20 : ℤ) ≤ 20) ↔ humorContext 20 = ("very serious").data) ∧
    ((21 ≤ (20 : ℤ) ∧ (20 : ℤ) ≤ 40) ↔ humorContext 20 = ("mostly serious").data) ∧
    ((41 ≤ (20 : ℤ) ∧ (20 : ℤ) ≤ 60) ↔ humorContext 20 = ("balanced").data) ∧
    ((61 ≤ (20 : ℤ) ∧ (20 : ℤ) ≤ 80) ↔ humorContext 20 = ("quite humorous").data) ∧
    ((81 ≤ (20 : ℤ) ∧ (20 : ℤ) ≤ 100) ↔ humorContext 20 = ("extremely humorous").data) :=
  C5_humor_tiers 20 (by decide) (by decide)

/-! ## Claim C6 -/

/-- Claim C6 (amended): every direct humor-change command whose extracted
first integer exceeds 100 yields the user-facing correction message with
absent function output, and the stored humor level is unchanged.  The
claim as stated also offers -5 as an example of an out-of-range extracted
integer, but the digit-run extractor drops the sign: "set humor to -5"
extracts 5, which is in range and CHANGES the stored level (see the
counterexample). -/
theorem C6_out_of_range_correction (humor : ℤ) (msg : Str)
    (hcond : ((occurs (("set").data) (lowerS msg) ||
      occurs (("change").data) (lowerS msg) ||
      occurs (("adjust").data) (lowerS msg)) &&
      occurs (("humor").data) (lowerS msg) &&
      !((extractNums msg).isEmpty)) = true)
    (hbig : 100 < natOfDigits ((extractNums msg).headD [])) :
    process_message humor msg = (some (correctionMsg, none), humor) := by
  simp only [process_message, hcond, if_true]
  have hni : ¬ (0 ≤ ((natOfDigits ((extractNums msg).headD []) : ℕ) : ℤ) ∧
      ((natOfDigits ((extractNums msg).headD []) : ℕ) : ℤ) ≤ 100) := by
    intro hcontra
    have h2 := hcontra.2
    omega
  rw [if_neg hni]

/-- Witness for C6: setting humor to 150 is rejected without state change. -/
theorem C6_out_of_range_correction_witness :
    process_message 50 (("set humor to 150").data) = (some (correctionMsg, none), 50) :=
  C6_out_of_range_correction 50 (("set humor to 150").data) (by decide) (by decide)

/-- Counterexample to claim C6 as stated: "set humor to -5" - offered by
the claim as an out-of-range example - extracts the unsigned digit run 5,
which is in range, so the command CHANGES the stored level from 50 to 5
and returns the success response, not a correction with unchanged state. -/
theorem C6_counterexample :
    process_message 50 (("set humor to -5").data) =
      (some (adjustVerbal 5, some (humorFuncStr 5)), 5) ∧ ((5 : ℤ) ≠ 50) := by
  decide

/-! ## Claim C7 -/

/-- Claim C7: every todo new operation with a non-empty item name appends
one row with completed flag "False" whose due-date field is resolved by
the source chain: text containing "tomorrow" (case-folded) gives the
current date plus one day in dashed year-month-day form; otherwise "next
week" gives plus seven days; otherwise "today" gives the current date;
otherwise the text is accepted only if it parses strictly in the dashed
format (then stored re-rendered), and on parse failure the current date is
stored. -/
theorem C7_todo_new_due_date (cur : ℤ) (rows : List TodoRow) (name dd : Str)
    (hname : name ≠ []) :
    ∃ d, TodoTool_handle cur rows ⟨("new").data, some name, some dd⟩ =
      ((("FUNC: Added todo item: ").data ++ name ++ (" (Due: ").data ++ d ++ (")").data),
       rows ++ [⟨name, d, ("False").data⟩]) ∧
    (occurs (("tomorrow").data) (lowerS dd) = true → d = fmtDate (cur + 1)) ∧
    (occurs (("tomorrow").data) (lowerS dd) = false →
      occurs (("next week").data) (lowerS dd) = true → d = fmtDate (cur + 7)) ∧
    (occurs (("tomorrow").data) (lowerS dd) = false →
      occurs (("next week").data) (lowerS dd) = false →
      occurs (("today").data) (lowerS dd) = true → d = fmtDate cur) ∧
    (occurs (("tomorrow").data) (lowerS dd) = false →
      occurs (("next week").data) (lowerS dd) = false →
      occurs (("today").data) (lowerS dd) = false →
      ∀ p, parseDate dd = some p → d = fmtDate p) ∧
    (occurs (("tomorrow").data) (lowerS dd) = false →
      occurs (("next week").data) (lowerS dd) = false →
      occurs (("today").data) (lowerS dd) = false →
      parseDate dd = none → d = fmtDate cur) := by
  have hfal : falsyO (some name) = false := by
    cases name with
    | nil => exact absurd rfl hname
    | cons a t => rfl
  refine ⟨resolveDue cur (some dd), by simp [TodoTool_handle, hfal], ?_, ?_, ?_, ?_, ?_⟩
  · intro h1
    cases dd with
    | nil => exact absurd h1 (by decide)
    | cons c dd' => simp [resolveDue, falsyO, List.isEmpty, h1]
  · intro h1 h2
    cases dd with
    | nil => exact absurd h2 (by decide)
    | cons c dd' => simp [resolveDue, falsyO, List.isEmpty, h1, h2]
  · intro h1 h2 h3
    cases dd with
    | nil => exact absurd h3 (by decide)
    | cons c dd' => simp [resolveDue, falsyO, List.isEmpty, h1, h2, h3]
  · intro h1 h2 h3 p hp
    cases dd with
    | nil =>
      rw [(by decide : parseDate ([] : Str) = none)] at hp
      cases hp
    | cons c dd' => simp [resolveDue, falsyO, List.isEmpty, h1, h2, h3, hp]
  · intro h1 h2 h3 hp
    cases dd with
    | nil => simp [resolveDue, falsyO, List.isEmpty]
    | cons c dd' => simp [resolveDue, falsyO, List.isEmpty, h1, h2, h3, hp]

/-- Witness for C7: adding a todo due "tomorrow" on day 19800. -/
theorem C7_todo_new_due_date_witness :
    ∃ d, TodoTool_handle 19800 [] ⟨("new").data, some (("buy milk").data),
        some (("tomorrow").data)⟩ =
      ((("FUNC: Added todo item: ").data ++ ("buy milk").data ++ (" (Due: ").data ++
        d ++ (")").data),
       [] ++ [⟨("buy milk").data, d, ("False").data⟩]) ∧
    (occurs (("tomorrow").data) (lowerS (("tomorrow").data)) = true →
      d = fmtDate (19800 + 1)) ∧
    (occurs (("tomorrow").data) (lowerS (("tomorrow").data)) = false →
      occurs (("next week").data) (lowerS (("tomorrow").data)) = true →
      d = fmtDate (19800 + 7)) ∧
    (occurs (("tomorrow").data) (lowerS (("tomorrow").data)) = false →
      occurs (("next week").data) (lowerS (("tomorrow").data)) = false →
      occurs (("today").data) (lowerS (("tomorrow").data)) = true →
      d = fmtDate 19800) ∧
    (occurs (("tomorrow").data) (lowerS (("tomorrow").data)) = false →
      occurs (("next week").data) (lowerS (("tomorrow").data)) = false →
      occurs (("today").data) (lowerS (("tomorrow").data)) = false →
      ∀ p, parseDate (("tomorrow").data) = some p → d = fmtDate p) ∧
    (occurs (("tomorrow").data) (lowerS (("tomorrow").data)) = false →
      occurs (("next week").data) (lowerS (("tomorrow").data)) = false →
      occurs (("today").data) (lowerS (("tomorrow").data)) = false →
      parseDate (("tomorrow").data) = none → d = fmtDate 19800) :=
  C7_todo_new_due_date 19800 [] (("buy milk").data) (("tomorrow").data) (by decide)

/-! ## Claim C8 -/

/-- Claim C8 (amended): when a NON-EMPTY item name matches
(case-insensitively, as a substring) exactly one stored todo row, the
complete operation rewrites the store with that row's completed flag set
to "True" and every other row's name, due date and completed fields
unchanged, and the store keeps its length.  The non-emptiness proviso is
forced: the empty item name is a substring of every stored name (so of
exactly one name in a one-row store), yet the handler's falsiness guard
reports a missing item name and flips nothing (see the counterexample). -/
theorem C8_todo_complete_unique_match (cur : ℤ) (rows : List TodoRow) (item : Str)
    (hitem : item ≠ []) (j : Nat) (hj : j < rows.length)
    (huniq : ∀ i, (hi : i < rows.length) →
      (todoNameMatch item (rows.get ⟨i, hi⟩) = true ↔ i = j)) :
    ((TodoTool_handle cur rows ⟨("complete").data, some item, none⟩).2).length =
      rows.length ∧
    (∀ hj2 : j < ((TodoTool_handle cur rows ⟨("complete").data, some item, none⟩).2).length,
      ((TodoTool_handle cur rows ⟨("complete").data, some item, none⟩).2).get ⟨j, hj2⟩ =
        ⟨(rows.get ⟨j, hj⟩).name, (rows.get ⟨j, hj⟩).due_date, ("True").data⟩) ∧
    (∀ i, (hi : i < rows.length) → i ≠ j →
      ∀ hi2 : i < ((TodoTool_handle cur rows ⟨("complete").data, some item, none⟩).2).length,
      ((TodoTool_handle cur rows ⟨("complete").data, some item, none⟩).2).get ⟨i, hi2⟩ =
        rows.get ⟨i, hi⟩) := by
  have hfal : falsyO (some item) = false := by
    cases item with
    | nil => exact absurd rfl hitem
    | cons a t => rfl
  have hfound : rows.any (todoNameMatch item) = true :=
    List.any_eq_true.mpr ⟨rows.get ⟨j, hj⟩, List.get_mem rows j hj, (huniq j hj).mpr rfl⟩
  have he : (TodoTool_handle cur rows ⟨("complete").data, some item, none⟩).2 =
      rows.map (fun r =>
        if todoNameMatch item r then ⟨r.name, r.due_date, ("True").data⟩ else r) := by
    simp [TodoTool_handle, hfal, hfound]
  rw [he]
  refine ⟨List.length_map rows _, ?_, ?_⟩
  · intro hj2
    rw [List.get_map]
    rw [if_pos ((huniq j hj).mpr rfl)]
  · intro i hi hne hi2
    rw [List.get_map]
    rw [if_neg (fun hcon => hne ((huniq i hi).mp hcon))]

/-- Counterexample to claim C8 as stated: the empty item name is a
case-insensitive substring of exactly one stored todo's name in this
one-row store, yet the complete operation returns the missing-item error
and leaves the row's completed flag "False" - no flag is flipped. -/
theorem C8_counterexample :
    todoNameMatch ([] : Str)
      ⟨("Buy Milk").data, ("2024-01-01").data, ("False").data⟩ = true ∧
    TodoTool_handle 0 [⟨("Buy Milk").data, ("2024-01-01").data, ("False").data⟩]
        ⟨("complete").data, some ([] : Str), none⟩ =
      ((("FUNC: Error: No item name provided").data),
       [⟨("Buy Milk").data, ("2024-01-01").data, ("False").data⟩]) := by
  decide

/-- Witness for C8: completing "milk" flips exactly the matching row. -/
theorem C8_todo_complete_unique_match_witness :
    ((TodoTool_handle 0 [⟨("Buy Milk").data, ("2024-01-01").data, ("False").data⟩,
        ⟨("walk dog").data, ("2024-01-02").data, ("False").data⟩]
        ⟨("complete").data, some (("milk").data), none⟩).2).length = 2 ∧
    (∀ hj2 : 0 < ((TodoTool_handle 0 [⟨("Buy Milk").data, ("2024-01-01").data, ("False").data⟩,
        ⟨("walk dog").data, ("2024-01-02").data, ("False").data⟩]
        ⟨("complete").data, some (("milk").data), none⟩).2).length,
      ((TodoTool_handle 0 [⟨("Buy Milk").data, ("2024-01-01").data, ("False").data⟩,
        ⟨("walk dog").data, ("2024-01-02").data, ("False").data⟩]
        ⟨("complete").data, some (("milk").data), none⟩).2).get ⟨0, hj2⟩ =
        ⟨(("Buy Milk").data), (("2024-01-01").data), ("True").data⟩) ∧
    (∀ i, (hi : i < 2) → i ≠ 0 →
      ∀ hi2 : i < ((TodoTool_handle 0 [⟨("Buy Milk").data, ("2024-01-01").data, ("False").data⟩,
        ⟨("walk dog").data, ("2024-01-02").data, ("False").data⟩]
        ⟨("complete").data, some (("milk").data), none⟩).2).length,
      ((TodoTool_handle 0 [⟨("Buy Milk").data, ("2024-01-01").data, ("False").data⟩,
        ⟨("walk dog").data, ("2024-01-02").data, ("False").data⟩]
        ⟨("complete").data, some (("milk").data), none⟩).2).get ⟨i, hi2⟩ =
        ([⟨("Buy Milk").data, ("2024-01-01").data, ("False").data⟩,
          ⟨("walk dog").data, ("2024-01-02").data, ("False").data⟩] : List TodoRow).get ⟨i, hi⟩) := by
  have h := C8_todo_complete_unique_match 0
    [⟨("Buy Milk").data, ("2024-01-01").data, ("False").data⟩,
     ⟨("walk dog").data, ("2024-01-02").data, ("False").data⟩]
    (("milk").data) (by decide) 0 (by decide) (by decide)
  exact h

/-! ## Claim C10 -/

/-- Claim C10: for every store state and every non-empty item name, the
todo delete operation reports "Todo item not found" and leaves the rows
unchanged - the found flag compares the filtered length against a count
taken from an already-exhausted csv reader (always 0), so the rewrite
branch is unreachable and no row is ever removed, even when a stored name
contains the item name. -/
theorem C10_todo_delete_never_removes (cur : ℤ) (rows : List TodoRow) (item : Str)
    (hitem : item ≠ []) :
    TodoTool_handle cur rows ⟨("delete").data, some item, none⟩ =
      ((("FUNC: Todo item not found: ").data ++ item), rows) := by
  have hfal : falsyO (some item) = false := by
    cases item with
    | nil => exact absurd rfl hitem
    | cons a t => rfl
  simp [TodoTool_handle, hfal]

/-- Witness for C10: deleting "milk" fails to remove the matching row. -/
theorem C10_todo_delete_never_removes_witness :
    TodoTool_handle 0 [⟨("Buy Milk").data, ("2024-01-01").data, ("False").data⟩]
        ⟨("delete").data, some (("milk").data), none⟩ =
      ((("FUNC: Todo item not found: ").data ++ ("milk").data),
       [⟨("Buy Milk").data, ("2024-01-01").data, ("False").data⟩]) :=
  C10_todo_delete_never_removes 0
    [⟨("Buy Milk").data, ("2024-01-01").data, ("False").data⟩]
    (("milk").data) (by decide)

/-! ## Claim C9 -/

/-- Substring occurrence from an explicit decomposition. -/
theorem occurs_of_split (x y : Str) {q s : Str} (h : s = x ++ q ++ y) :
    occurs q s = true := by
  rw [h, List.append_assoc]
  exact occurs_of_mid q x y

/-- The empty pattern occurs in every string. -/
theorem occurs_nil_left (s : Str) : occurs ([] : Str) s = true := by
  cases s with
  | nil => rfl
  | cons c rest => simp [occurs, List.isPrefixOf]

/-- Looking up a freshly written file returns its content. -/
theorem lookupV_insertV (key val : Str) : ∀ v : Vault,
    lookupV (insertV key val v) key = some val := by
  intro v
  induction v with
  | nil => simp [insertV, lookupV]
  | cons p rest ih =>
    obtain ⟨k, w⟩ := p
    by_cases hk : k = key
    · simp [insertV, hk, lookupV]
    · simp [insertV, hk, lookupV, ih]

/-- Looking up an unlinked file fails. -/
theorem lookupV_removeV (key : Str) : ∀ v : Vault,
    lookupV (removeV key v) key = none := by
  intro v
  induction v with
  | nil => rfl
  | cons p rest ih =>
    obtain ⟨k, w⟩ := p
    by_cases hk : k = key
    · simpa [removeV, List.filter_cons, hk] using ih
    · simpa [removeV, List.filter_cons, hk, lookupV] using ih

/-- Claim C9 (amended): for every NON-EMPTY note title and every body,
creating the note then reading it back under the same title returns
content containing the original body, and deleting it then reading it
returns a "not found" error.  The non-emptiness proviso is forced: an
empty title is falsy, so creation silently renames the note to a
timestamped default while the read reports a missing title instead. -/
theorem C9_note_roundtrip (stamp : Str) (cur : ℤ) (vault : Vault)
    (title content : Str) (date : Option Str) (htitle : title ≠ []) :
    occurs content (NoteTool_handle stamp cur
      (NoteTool_handle stamp cur vault
        ⟨("new").data, some title, some content, date⟩).2
      ⟨("read").data, some title, none, none⟩).1 = true ∧
    occurs (("not found").data) (NoteTool_handle stamp cur
      (NoteTool_handle stamp cur
        (NoteTool_handle stamp cur vault
          ⟨("new").data, some title, some content, date⟩).2
        ⟨("delete").data, some title, none, none⟩).2
      ⟨("read").data, some title, none, none⟩).1 = true := by
  have hfal : falsyO (some title) = false := by
    cases title with
    | nil => exact absurd rfl htitle
    | cons a t => rfl
  constructor
  · by_cases hc : content = []
    · subst hc
      exact occurs_nil_left _
    · have hcfal : falsyO (some content) = false := by
        cases content with
        | nil => exact absurd rfl hc
        | cons a t => rfl
      have hred : (NoteTool_handle stamp cur
          (NoteTool_handle stamp cur vault
            ⟨("new").data, some title, some content, date⟩).2
          ⟨("read").data, some title, none, none⟩).1 =
          ("FUNC: NOTE_CONTENT_FOR_PROCESSING\n").data ++
            noteBody title (if falsyO date = true then fmtDate cur else date.getD [])
              content := by
        simp [NoteTool_handle, hfal, hcfal, lookupV_insertV]
      rw [hred]
      apply occurs_of_split (("FUNC: NOTE_CONTENT_FOR_PROCESSING\n").data ++
        ((("---\ntitle: ").data ++ title ++ ("\ndate: ").data ++
          (if falsyO date = true then fmtDate cur else date.getD []) ++
          ("\n---\n\n").data)))
        (("\n").data)
      simp [noteBody, List.append_assoc]
  · have hred : (NoteTool_handle stamp cur
        (NoteTool_handle stamp cur
          (NoteTool_handle stamp cur vault
            ⟨("new").data, some title, some content, date⟩).2
          ⟨("delete").data, some title, none, none⟩).2
        ⟨("read").data, some title, none, none⟩).1 =
        ("FUNC: Error: Note not found\nI couldn\x27t find a note titled \x27").data ++
          title ++ ("\x27 in the vault.").data := by
      simp [NoteTool_handle, hfal, lookupV_insertV, lookupV_removeV]
    rw [hred]
    apply occurs_of_split (("FUNC: Error: Note ").data)
      ((("\nI couldn\x27t find a note titled \x27").data) ++ title ++
        ("\x27 in the vault.").data)
    rw [show (("FUNC: Error: Note not found\nI couldn\x27t find a note titled \x27").data : Str) =
      ("FUNC: Error: Note ").data ++ ("not found").data ++
        ("\nI couldn\x27t find a note titled \x27").data from by decide]
    simp [List.append_assoc]

/-- Witness for C9: creating, reading, deleting and re-reading "My Plan". -/
theorem C9_note_roundtrip_witness :
    occurs (("hello world 42").data) (NoteTool_handle (("x").data) 0
      (NoteTool_handle (("x").data) 0 []
        ⟨("new").data, some (("My Plan").data), some (("hello world 42").data), none⟩).2
      ⟨("read").data, some (("My Plan").data), none, none⟩).1 = true ∧
    occurs (("not found").data) (NoteTool_handle (("x").data) 0
      (NoteTool_handle (("x").data) 0
        (NoteTool_handle (("x").data) 0 []
          ⟨("new").data, some (("My Plan").data), some (("hello world 42").data), none⟩).2
        ⟨("delete").data, some (("My Plan").data), none, none⟩).2
      ⟨("read").data, some (("My Plan").data), none, none⟩).1 = true :=
  C9_note_roundtrip (("x").data) 0 [] (("My Plan").data) (("hello world 42").data)
    none (by decide)

/-- Counterexample to claim C9 as stated: with the empty title the create
operation substitutes a timestamped default title, and the subsequent read
with the same (empty) title reports a missing title - its result does not
contain the original body text. -/
theorem C9_counterexample :
    (NoteTool_handle (("20240101_120000").data) 0
      (NoteTool_handle (("20240101_120000").data) 0 []
        ⟨("new").data, some ([] : Str), some (("hello world 42").data), none⟩).2
      ⟨("read").data, some ([] : Str), none, none⟩).1 =
      (("FUNC: Error: No title provided\nI need a title to read a note.").data) ∧
    occurs (("hello world 42").data)
      ((NoteTool_handle (("20240101_120000").data) 0
        (NoteTool_handle (("20240101_120000").data) 0 []
          ⟨("new").data, some ([] : Str), some (("hello world 42").data), none⟩).2
        ⟨("read").data, some ([] : Str), none, none⟩).1) = false := by
  decide
